import Mathlib

/-!
Shallow embedding of the p2p transfer core (crates `crypto_envelope`,
`transfer`, `handshake`, `large_file_manager`, `lan_offline`) and proofs
about it.  Bytes are modelled as `Nat` values kept below 256 by the
operations themselves (`% 256` where the Rust code wraps); byte strings
are `List Nat`; fallible Rust functions returning `Result` are modelled
with `Except`.
-/

set_option autoImplicit false

/-! ## Byte-level helpers (u8 arithmetic used by the Rust code) -/

/-- `u8::rotate_left(1)` for a byte value below 256. -/
def rotl8 (b : Nat) : Nat := b * 2 % 256 + b / 128

/-- `u8::rotate_right(1)` for a byte value below 256. -/
def rotr8 (b : Nat) : Nat := b / 2 + b % 2 * 128

/-- `u8::rotate_left(k)` for a byte value below 256. -/
def rotl8k (b k : Nat) : Nat := b * 2 ^ (k % 8) % 256 + b / 2 ^ (8 - k % 8)

/-- Big-endian byte string of width `w` of a natural number, as produced by
Rust's `uN::to_be_bytes` (values are taken modulo `256 ^ w`, matching the
fixed-width machine integer). -/
def be_bytes : Nat → Nat → List Nat
  | 0, _ => []
  | w + 1, v => be_bytes w (v / 256) ++ [v % 256]

/-- Recombine a big-endian byte string into a natural number, as done by
Rust's `uN::from_be_bytes`. -/
def fromBE (l : List Nat) : Nat := l.foldl (fun a b => a * 256 + b) 0

@[simp] theorem be_bytes_length (w v : Nat) : (be_bytes w v).length = w := by
  induction w generalizing v with
  | zero => rfl
  | succ w ih => simp [be_bytes, ih]

theorem be_bytes_succ_drop (w v : Nat) : (be_bytes (w + 1) v).drop 1 = be_bytes w v := by
  induction w generalizing v with
  | zero => simp [be_bytes]
  | succ w ih =>
    have h1 : 1 ≤ (be_bytes (w + 1) (v / 256)).length := by simp
    calc (be_bytes (w + 1 + 1) v).drop 1
        = (be_bytes (w + 1) (v / 256) ++ [v % 256]).drop 1 := rfl
      _ = (be_bytes (w + 1) (v / 256)).drop 1 ++ [v % 256] :=
          List.drop_append_of_le_length h1
      _ = be_bytes w (v / 256) ++ [v % 256] := by rw [ih]
      _ = be_bytes (w + 1) v := rfl

theorem fromBE_be_bytes (w v : Nat) : fromBE (be_bytes w v) = v % 256 ^ w := by
  induction w generalizing v with
  | zero => simp [be_bytes, fromBE, Nat.mod_one]
  | succ w ih =>
    have hfold : fromBE (be_bytes (w + 1) v)
        = fromBE (be_bytes w (v / 256)) * 256 + v % 256 := by
      simp [be_bytes, fromBE, List.foldl_append]
    rw [hfold, ih]
    have h256 : (256 : Nat) ^ (w + 1) = 256 * 256 ^ w := by ring
    rw [h256, Nat.mod_mul]
    ring

/-! ## crypto_envelope -/

inductive Direction where
  | SenderToReceiver
  | ReceiverToSender
  deriving DecidableEq, Repr

inductive CryptoEnvelopeError where
  | DecryptionFailure
  deriving DecidableEq, Repr

/-- Byte written into position 11 of the nonce for each direction. -/
def Direction.tagByte : Direction → Nat
  | .SenderToReceiver => 0x01
  | .ReceiverToSender => 0x02

/-- `derive_nonce`: 8 big-endian bytes of `transfer_id`, the low three
big-endian bytes of `chunk_index`, then the direction byte. -/
def derive_nonce (transfer_id chunk_index : Nat) (direction : Direction) : List Nat :=
  be_bytes 8 transfer_id ++ (be_bytes 4 chunk_index).drop 1 ++ [direction.tagByte]

/-- `keystream_byte` from the source: a per-index byte mixed from the key,
the nonce and the index. -/
def keystream_byte (key nonce : List Nat) (index : Nat) : Nat :=
  let k := key.getD (index % key.length) 0
  let n := nonce.getD (index % nonce.length) 0
  let i := index % 256 * 31 % 256
  rotl8 k ^^^ rotr8 n ^^^ i

/-- Indexed fold used to model the `for (idx, byte) in xs.iter().enumerate()`
loops of `compute_tag`. -/
def fold_idx (f : Nat → Nat → Nat → Nat) : Nat → Nat → List Nat → Nat
  | acc, _, [] => acc
  | acc, i, b :: rest => fold_idx f (f acc i b) (i + 1) rest

/-- The one-byte tag of the source's toy envelope. -/
def compute_tag (key nonce aad plaintext : List Nat) : Nat :=
  let t1 := fold_idx (fun t i b => t ^^^ (b + i % 256 * 3 % 256) % 256) 0 0 key
  let t2 := fold_idx (fun t i b => t ^^^ rotl8k b (i % 8)) t1 0 nonce
  let t3 := fold_idx (fun t i b => (t + b * Nat.max (i % 256 % 17) 1 % 256) % 256) t2 0 aad
  fold_idx (fun t i b => t ^^^ (b + i % 256 * 7 % 256) % 256) t3 0 plaintext

/-- XOR a byte string with the keystream starting at index `s`; models the
encryption/decryption loops. -/
def xor_ks (key nonce : List Nat) : Nat → List Nat → List Nat
  | _, [] => []
  | s, b :: rest => (b ^^^ keystream_byte key nonce s) :: xor_ks key nonce (s + 1) rest

def encrypt_chunk_with_aad (session_tx_key nonce plaintext aad : List Nat) :
    Except CryptoEnvelopeError (List Nat) :=
  if plaintext = [] then
    .ok [compute_tag session_tx_key nonce aad plaintext]
  else
    .ok (xor_ks session_tx_key nonce 0 plaintext ++
      [compute_tag session_tx_key nonce aad plaintext])

def decrypt_chunk_with_aad (session_rx_key nonce ciphertext aad : List Nat) :
    Except CryptoEnvelopeError (List Nat) :=
  if ciphertext = [] then .error .DecryptionFailure
  else
    let cipher_payload := ciphertext.dropLast
    let tag := ciphertext.getLast?.getD 0
    let plaintext := xor_ks session_rx_key nonce 0 cipher_payload
    if tag ≠ compute_tag session_rx_key nonce aad plaintext then .error .DecryptionFailure
    else .ok plaintext

def encrypt_chunk (session_tx_key nonce plaintext : List Nat) :
    Except CryptoEnvelopeError (List Nat) :=
  encrypt_chunk_with_aad session_tx_key nonce plaintext []

def decrypt_chunk (session_rx_key nonce ciphertext : List Nat) :
    Except CryptoEnvelopeError (List Nat) :=
  decrypt_chunk_with_aad session_rx_key nonce ciphertext []

/-! ## transfer: framing -/

inductive TransferError where
  | InvalidFrame (msg : String)
  | InvalidConfig (msg : String)
  | ChunkOutOfRange
  | WrongTransfer
  | UnknownReceiver
  | AckOutOfRange
  | Crypto (msg : String)
  deriving DecidableEq, Repr

/-- Wire magic `b"P2PF"`. -/
def MAGIC_V1 : List Nat := [80, 50, 80, 70]

/-- Wire magic `b"P2PE"`. -/
def MAGIC_V2 : List Nat := [80, 50, 80, 69]

structure TransferChunk where
  transfer_id : Nat
  chunk_index : Nat
  total_chunks : Nat
  payload : List Nat
  deriving DecidableEq, Repr

def TransferChunk.encode (c : TransferChunk) : List Nat :=
  let payload_len := Nat.min c.payload.length 4294967295
  MAGIC_V1 ++ be_bytes 8 c.transfer_id ++ be_bytes 4 c.chunk_index ++
    be_bytes 4 c.total_chunks ++ be_bytes 4 payload_len ++ c.payload.take payload_len

def TransferChunk.decode (bytes : List Nat) : Except TransferError TransferChunk :=
  if bytes.length < 24 ∨ bytes.take 4 ≠ MAGIC_V1 then
    .error (.InvalidFrame "bad header")
  else
    let transfer_id := fromBE ((bytes.drop 4).take 8)
    let chunk_index := fromBE ((bytes.drop 12).take 4)
    let total_chunks := fromBE ((bytes.drop 16).take 4)
    let payload_len := fromBE ((bytes.drop 20).take 4)
    if bytes.length ≠ 24 + payload_len then
      .error (.InvalidFrame "invalid payload length")
    else if total_chunks = 0 ∨ chunk_index ≥ total_chunks then
      .error (.InvalidFrame "invalid chunk bounds")
    else
      .ok ⟨transfer_id, chunk_index, total_chunks, bytes.drop 24⟩

inductive EncryptionFlag where
  | Plaintext
  | Encrypted
  deriving DecidableEq, Repr

def EncryptionFlag.as_u8 : EncryptionFlag → Nat
  | .Plaintext => 0
  | .Encrypted => 1

def EncryptionFlag.from_u8 (v : Nat) : Except TransferError EncryptionFlag :=
  if v = 0 then .ok .Plaintext
  else if v = 1 then .ok .Encrypted
  else .error (.InvalidFrame "invalid encryption flag")

structure TransferChunkV2 where
  protocol_version : Nat
  encryption_flag : EncryptionFlag
  transfer_id : Nat
  chunk_index : Nat
  total_chunks : Nat
  nonce : List Nat
  aad : List Nat
  payload : List Nat
  deriving DecidableEq, Repr

def TransferChunkV2.encode (f : TransferChunkV2) : List Nat :=
  let aad_len := Nat.min f.aad.length 65535
  let payload_len := Nat.min f.payload.length 4294967295
  MAGIC_V2 ++ [f.protocol_version % 256] ++ [f.encryption_flag.as_u8] ++
    be_bytes 8 f.transfer_id ++ be_bytes 4 f.chunk_index ++ be_bytes 4 f.total_chunks ++
    f.nonce ++ be_bytes 2 aad_len ++ be_bytes 4 payload_len ++
    f.aad.take aad_len ++ f.payload.take payload_len

def TransferChunkV2.decode (bytes : List Nat) : Except TransferError TransferChunkV2 :=
  if bytes.length < 40 ∨ bytes.take 4 ≠ MAGIC_V2 then
    .error (.InvalidFrame "bad v2 header")
  else
    let protocol_version := bytes.getD 4 0
    match EncryptionFlag.from_u8 (bytes.getD 5 0) with
    | .error e => .error e
    | .ok encryption_flag =>
      let transfer_id := fromBE ((bytes.drop 6).take 8)
      let chunk_index := fromBE ((bytes.drop 14).take 4)
      let total_chunks := fromBE ((bytes.drop 18).take 4)
      if protocol_version ≠ 2 then
        .error (.InvalidFrame "unsupported protocol version")
      else if total_chunks = 0 ∨ chunk_index ≥ total_chunks then
        .error (.InvalidFrame "invalid chunk bounds")
      else
        let nonce := (bytes.drop 22).take 12
        let aad_len := fromBE ((bytes.drop 34).take 2)
        let payload_len := fromBE ((bytes.drop 36).take 4)
        if bytes.length ≠ 40 + aad_len + payload_len then
          .error (.InvalidFrame "invalid payload length")
        else
          .ok ⟨protocol_version, encryption_flag, transfer_id, chunk_index, total_chunks,
            nonce, (bytes.drop 40).take aad_len, bytes.drop (40 + aad_len)⟩

/-- `transfer_chunk_aad`: 8 bytes of `transfer_id`, 4 of `chunk_index`,
4 of `total_chunks`, all big-endian (16 bytes in total). -/
def transfer_chunk_aad (chunk : TransferChunk) : List Nat :=
  be_bytes 8 chunk.transfer_id ++ be_bytes 4 chunk.chunk_index ++ be_bytes 4 chunk.total_chunks

def encrypt_chunk_frame (chunk : TransferChunk) (session_tx_key : List Nat) :
    Except TransferError TransferChunkV2 :=
  let nonce := derive_nonce chunk.transfer_id chunk.chunk_index Direction.SenderToReceiver
  let aad := transfer_chunk_aad chunk
  match encrypt_chunk session_tx_key nonce chunk.payload with
  | .error _ => .error (.Crypto "failed to encrypt chunk payload")
  | .ok ciphertext =>
    .ok ⟨2, .Encrypted, chunk.transfer_id, chunk.chunk_index, chunk.total_chunks,
      nonce, aad, ciphertext⟩

def decrypt_chunk_frame (frame : TransferChunkV2) (session_rx_key : List Nat) :
    Except TransferError TransferChunk :=
  if frame.encryption_flag ≠ EncryptionFlag.Encrypted then
    .error (.InvalidFrame "expected encrypted frame")
  else
    match decrypt_chunk session_rx_key frame.nonce frame.payload with
    | .error _ => .error (.Crypto "failed to decrypt chunk payload")
    | .ok plaintext =>
      .ok ⟨frame.transfer_id, frame.chunk_index, frame.total_chunks, plaintext⟩

/-! ## transfer: session and acks -/

structure Ack where
  transfer_id : Nat
  receiver_id : String
  next_expected_chunk : Nat
  deriving DecidableEq, Repr

structure ReceiverProgress where
  receiver_id : String
  acked_up_to_exclusive : Nat
  total_chunks : Nat
  deriving DecidableEq, Repr

/-- `TransferSession`; the `HashMap<String, ReceiverProgress>` is modelled as
an association list where lookup and update both act on the first matching
key. -/
structure TransferSession where
  transfer_id : Nat
  total_chunks : Nat
  chunk_size : Nat
  data : List Nat
  receivers : List (String × ReceiverProgress)
  deriving DecidableEq, Repr

def lookupReceiver : List (String × ReceiverProgress) → String → Option ReceiverProgress
  | [], _ => none
  | (k, v) :: rest, id => if k = id then some v else lookupReceiver rest id

def updateReceiver : List (String × ReceiverProgress) → String → ReceiverProgress →
    List (String × ReceiverProgress)
  | [], _, _ => []
  | (k, v) :: rest, id, v2 =>
    if k = id then (k, v2) :: rest else (k, v) :: updateReceiver rest id v2

def TransferSession.apply_ack (s : TransferSession) (ack : Ack) :
    Except TransferError TransferSession :=
  if ack.transfer_id ≠ s.transfer_id then .error .WrongTransfer
  else
    match lookupReceiver s.receivers ack.receiver_id with
    | none => .error .UnknownReceiver
    | some receiver =>
      if ack.next_expected_chunk > s.total_chunks then .error .AckOutOfRange
      else if ack.next_expected_chunk > receiver.acked_up_to_exclusive then
        let receiver2 := { receiver with acked_up_to_exclusive := ack.next_expected_chunk }
        .ok { s with receivers := updateReceiver s.receivers ack.receiver_id receiver2 }
      else .ok s

/-- One driver step: apply an ack, keeping the old session state when
`apply_ack` returns an error (the Rust method mutates nothing on error). -/
def TransferSession.apply_ack_step (s : TransferSession) (a : Ack) : TransferSession :=
  match s.apply_ack a with
  | .ok s2 => s2
  | .error _ => s

def TransferSession.apply_acks (s : TransferSession) (acks : List Ack) : TransferSession :=
  acks.foldl TransferSession.apply_ack_step s

/-- An ack that `apply_ack` accepts for receiver `r` of session `s`; whether
an ack succeeds does not depend on the mutable checkpoint. -/
def successfulFor (s : TransferSession) (r : String) (a : Ack) : Prop :=
  a.transfer_id = s.transfer_id ∧ a.receiver_id = r ∧ a.next_expected_chunk ≤ s.total_chunks

instance (s : TransferSession) (r : String) (a : Ack) : Decidable (successfulFor s r a) := by
  unfold successfulFor
  infer_instance

/-! ## handshake: capability negotiation -/

inductive EncryptionMode where
  | Off
  | Optional
  | Required
  deriving DecidableEq, Repr

inductive IdentityError where
  | Io (msg : String)
  | InvalidKey
  | InvalidBase64
  deriving DecidableEq, Repr

inductive HandshakeError where
  | TimestampSkew
  | InvalidSignature
  | NonceMismatch
  | Identity (e : IdentityError)
  | EncryptionRequiredButUnsupported
  | InvalidCapabilities
  deriving DecidableEq, Repr

def EncryptionMode.as_u8 : EncryptionMode → Nat
  | .Off => 0
  | .Optional => 1
  | .Required => 2

def EncryptionMode.from_u8 (v : Nat) : Except HandshakeError EncryptionMode :=
  if v = 0 then .ok .Off
  else if v = 1 then .ok .Optional
  else if v = 2 then .ok .Required
  else .error .InvalidCapabilities

structure HandshakeCapabilities where
  supports_encryption : Bool
  preferred_encryption_mode : EncryptionMode
  deriving DecidableEq, Repr

structure NegotiatedEncryption where
  enabled : Bool
  mode : EncryptionMode
  deriving DecidableEq, Repr

def validate_capabilities (capabilities : HandshakeCapabilities) :
    Except HandshakeError Unit :=
  match EncryptionMode.from_u8 capabilities.preferred_encryption_mode.as_u8 with
  | .error e => .error e
  | .ok _ =>
    if capabilities.supports_encryption = false ∧
        capabilities.preferred_encryption_mode ≠ EncryptionMode.Off then
      .error .InvalidCapabilities
    else .ok ()

def negotiate_encryption (client server : HandshakeCapabilities) :
    Except HandshakeError NegotiatedEncryption :=
  match validate_capabilities client with
  | .error e => .error e
  | .ok _ =>
    match validate_capabilities server with
    | .error e => .error e
    | .ok _ =>
      let either_requires := client.preferred_encryption_mode = EncryptionMode.Required ∨
        server.preferred_encryption_mode = EncryptionMode.Required
      let both_support := client.supports_encryption ∧ server.supports_encryption
      if either_requires ∧ ¬both_support then .error .EncryptionRequiredButUnsupported
      else if ¬both_support then .ok ⟨false, .Off⟩
      else if either_requires then .ok ⟨true, .Required⟩
      else if client.preferred_encryption_mode = EncryptionMode.Optional ∨
          server.preferred_encryption_mode = EncryptionMode.Optional then .ok ⟨true, .Optional⟩
      else .ok ⟨false, .Off⟩

/-- The validity invariant on capabilities named by the claim: a side that
does not support encryption must prefer `Off`. -/
def HandshakeCapabilities.validInvariant (c : HandshakeCapabilities) : Prop :=
  c.supports_encryption = false → c.preferred_encryption_mode = EncryptionMode.Off

instance (c : HandshakeCapabilities) : Decidable c.validInvariant := by
  unfold HandshakeCapabilities.validInvariant
  infer_instance

/-- Modelled from the spec: the negotiation rule table exactly as the claim
states it, used as the specification side of the refinement proof for the
source's `negotiate_encryption`. -/
def negotiate_encryption_claim_model (client server : HandshakeCapabilities) :
    Except HandshakeError NegotiatedEncryption :=
  let both_support := client.supports_encryption ∧ server.supports_encryption
  let either_required := client.preferred_encryption_mode = EncryptionMode.Required ∨
    server.preferred_encryption_mode = EncryptionMode.Required
  let either_optional := client.preferred_encryption_mode = EncryptionMode.Optional ∨
    server.preferred_encryption_mode = EncryptionMode.Optional
  if either_required ∧ ¬both_support then .error .EncryptionRequiredButUnsupported
  else if ¬both_support then .ok ⟨false, .Off⟩
  else if either_required then .ok ⟨true, .Required⟩
  else if either_optional then .ok ⟨true, .Optional⟩
  else .ok ⟨false, .Off⟩

/-! ## large_file_manager -/

inductive TransferState where
  | Running
  | Paused
  | Cancelled
  deriving DecidableEq, Repr

structure TransferCheckpoint where
  transfer_id : Nat
  next_chunk : Nat
  state : TransferState
  deriving DecidableEq, Repr

inductive ManagerError where
  | InvalidConfig (msg : String)
  | CheckpointFormat
  | ChunkOutOfRange
  | InvalidState (msg : String)
  | MissingChunk (i : Nat)
  | Io (msg : String)
  deriving DecidableEq, Repr

structure LargeFileManager where
  transfer_id : Nat
  total_chunks : Nat
  chunk_size : Nat
  checkpoint : TransferCheckpoint
  deriving DecidableEq, Repr

def LargeFileManager.update_next_chunk (m : LargeFileManager) (next_chunk : Nat) :
    Except ManagerError LargeFileManager :=
  if next_chunk > m.total_chunks then .error .ChunkOutOfRange
  else if m.checkpoint.state = TransferState.Cancelled then
    .error (.InvalidState "cannot update cancelled transfer")
  else if next_chunk > m.checkpoint.next_chunk then
    .ok { m with checkpoint := { m.checkpoint with next_chunk := next_chunk } }
  else .ok m

def LargeFileManager.pause (m : LargeFileManager) : Except ManagerError LargeFileManager :=
  match m.checkpoint.state with
  | .Running => .ok { m with checkpoint := { m.checkpoint with state := .Paused } }
  | .Paused => .ok m
  | .Cancelled => .error (.InvalidState "cannot pause cancelled transfer")

def LargeFileManager.resume (m : LargeFileManager) : Except ManagerError LargeFileManager :=
  match m.checkpoint.state with
  | .Paused => .ok { m with checkpoint := { m.checkpoint with state := .Running } }
  | .Running => .ok m
  | .Cancelled => .error (.InvalidState "cannot resume cancelled transfer")

def LargeFileManager.cancel (m : LargeFileManager) : LargeFileManager :=
  { m with checkpoint := { m.checkpoint with state := .Cancelled } }

/-! ## lan_offline -/

structure LanPolicy where
  allow_loopback : Bool
  allow_link_local : Bool
  allow_private : Bool
  deny_public : Bool
  deriving DecidableEq, Repr

def LanPolicy.default : LanPolicy :=
  ⟨true, true, true, true⟩

inductive PolicyDecision where
  | Allow
  | Deny (reason : String)
  deriving DecidableEq, Repr

/-- `std::net::IpAddr`: a V4 address as four octets or a V6 address as eight
16-bit segments. -/
inductive IpAddr where
  | V4 (o0 o1 o2 o3 : Nat)
  | V6 (s0 s1 s2 s3 s4 s5 s6 s7 : Nat)
  deriving DecidableEq, Repr

structure SocketAddr where
  ip : IpAddr
  port : Nat
  deriving DecidableEq, Repr

/-- Modelled from the Rust standard library: `Ipv4Addr::is_loopback` is the
`127.0.0.0/8` test and `Ipv6Addr::is_loopback` compares against `::1`. -/
def IpAddr.is_loopback : IpAddr → Bool
  | .V4 o0 _ _ _ => o0 == 127
  | .V6 s0 s1 s2 s3 s4 s5 s6 s7 =>
    s0 == 0 && s1 == 0 && s2 == 0 && s3 == 0 && s4 == 0 && s5 == 0 && s6 == 0 && s7 == 1

def is_private (ip : IpAddr) : Bool :=
  match ip with
  | .V4 o0 o1 _ _ =>
    o0 == 10 || (o0 == 172 && (decide (16 ≤ o1) && decide (o1 ≤ 31))) ||
      (o0 == 192 && o1 == 168)
  | .V6 s0 _ _ _ _ _ _ _ => s0 &&& 0xfe00 == 0xfc00

def is_link_local (ip : IpAddr) : Bool :=
  match ip with
  | .V4 o0 o1 _ _ => o0 == 169 && o1 == 254
  | .V6 s0 _ _ _ _ _ _ _ => s0 &&& 0xffc0 == 0xfe80

structure LanOfflineGuard where
  policy : LanPolicy
  mode_enabled : Bool
  deriving DecidableEq, Repr

def LanOfflineGuard.evaluate_peer (g : LanOfflineGuard) (addr : SocketAddr) :
    PolicyDecision :=
  if !g.mode_enabled then .Allow
  else
    let ip := addr.ip
    if ip.is_loopback then
      if g.policy.allow_loopback then .Allow else .Deny "loopback denied"
    else if is_link_local ip then
      if g.policy.allow_link_local then .Allow else .Deny "link-local denied"
    else if is_private ip then
      if g.policy.allow_private then .Allow else .Deny "private-range denied"
    else if g.policy.deny_public then
      .Deny "public internet address denied in offline mode"
    else .Allow

/-- Decidable equality for `Except`, so that concrete evaluations of the
embedded operations can be checked by `decide`. -/
instance {ε α : Type} [DecidableEq ε] [DecidableEq α] : DecidableEq (Except ε α) :=
  fun x y =>
    match x, y with
    | .ok a, .ok b =>
      if h : a = b then isTrue (by rw [h]) else isFalse (by intro hc; cases hc; exact h rfl)
    | .ok _, .error _ => isFalse (by intro hc; cases hc)
    | .error _, .ok _ => isFalse (by intro hc; cases hc)
    | .error e, .error f =>
      if h : e = f then isTrue (by rw [h]) else isFalse (by intro hc; cases hc; exact h rfl)

/-- All-zero 32-byte session key, used for concrete checks. -/
def zeroKey32 : List Nat := List.replicate 32 0

/-- All-zero 12-byte nonce, used for concrete checks. -/
def zeroNonce12 : List Nat := List.replicate 12 0

/-- Concrete v2 frame produced by `encrypt_chunk_frame` on the chunk
`{transfer_id = 0, chunk_index = 0, total_chunks = 1, payload = []}` under
the all-zero key, used for concrete checks. -/
def sampleEncryptedFrame : TransferChunkV2 :=
  (encrypt_chunk_frame ⟨0, 0, 1, []⟩ zeroKey32).toOption.getD
    ⟨0, .Plaintext, 0, 0, 0, [], [], []⟩

/-! ## General helper lemmas -/

theorem drop_append_ge {α : Type} (l1 : List α) :
    ∀ (l2 : List α) (n : Nat), l1.length ≤ n → (l1 ++ l2).drop n = l2.drop (n - l1.length) := by
  induction l1 with
  | nil => intro l2 n _; simp
  | cons a l ih =>
    intro l2 n h
    match n with
    | n + 1 =>
      have h2 : l.length ≤ n := by simpa using h
      simpa using ih l2 n h2

theorem getD_append_ge {α : Type} (l1 : List α) :
    ∀ (l2 : List α) (n : Nat) (d : α), l1.length ≤ n →
      (l1 ++ l2).getD n d = l2.getD (n - l1.length) d := by
  induction l1 with
  | nil => intro l2 n d _; simp
  | cons a l ih =>
    intro l2 n d h
    match n with
    | n + 1 =>
      have h2 : l.length ≤ n := by simpa using h
      simpa using ih l2 n d h2

theorem getD_append_lt {α : Type} (l1 : List α) :
    ∀ (l2 : List α) (n : Nat) (d : α), n < l1.length →
      (l1 ++ l2).getD n d = l1.getD n d := by
  induction l1 with
  | nil => intro l2 n d h; simp at h
  | cons a l ih =>
    intro l2 n d h
    match n with
    | 0 => rfl
    | n + 1 =>
      have h2 : n < l.length := by simpa using h
      simpa using ih l2 n d h2

theorem set_append_lt {α : Type} (l1 : List α) :
    ∀ (l2 : List α) (n : Nat) (x : α), n < l1.length →
      (l1 ++ l2).set n x = l1.set n x ++ l2 := by
  induction l1 with
  | nil => intro l2 n x h; simp at h
  | cons a l ih =>
    intro l2 n x h
    match n with
    | 0 => rfl
    | n + 1 =>
      have h2 : n < l.length := by simpa using h
      simp [List.set, ih l2 n x h2]

theorem set_append_len {α : Type} (l1 : List α) (t b : α) :
    (l1 ++ [t]).set l1.length b = l1 ++ [b] := by
  induction l1 with
  | nil => rfl
  | cons a l ih => simp [List.set, ih]

theorem xor_cancel_right (a b : Nat) : ((a ^^^ b) ^^^ b) = a := by
  rw [Nat.xor_assoc, Nat.xor_self, Nat.xor_zero]

theorem xor_left_cancel {a b c : Nat} (h : (a ^^^ b) = (a ^^^ c)) : b = c := by
  have h2 := congrArg (fun z => a ^^^ z) h
  simpa [← Nat.xor_assoc, Nat.xor_self, Nat.zero_xor] using h2

theorem xor_lt_256 {x y : Nat} (hx : x < 256) (hy : y < 256) : (x ^^^ y) < 256 := by
  have := Nat.xor_lt_two_pow (n := 8) hx hy
  simpa using this

theorem getD_lt_256 {l : List Nat} (hl : ∀ x ∈ l, x < 256) (n : Nat) : l.getD n 0 < 256 := by
  by_cases h : n < l.length
  · rw [List.getD_eq_getElem l 0 h]
    exact hl _ (List.getElem_mem h)
  · rw [List.getD_eq_default l 0 (by omega)]
    omega

theorem rotl8_lt_256 {b : Nat} (h : b < 256) : rotl8 b < 256 := by
  unfold rotl8
  omega

theorem rotr8_lt_256 {b : Nat} (h : b < 256) : rotr8 b < 256 := by
  unfold rotr8
  omega

theorem keystream_byte_lt_256 {key nonce : List Nat}
    (hk : ∀ x ∈ key, x < 256) (hn : ∀ x ∈ nonce, x < 256) (index : Nat) :
    keystream_byte key nonce index < 256 := by
  unfold keystream_byte
  exact xor_lt_256
    (xor_lt_256 (rotl8_lt_256 (getD_lt_256 hk _)) (rotr8_lt_256 (getD_lt_256 hn _)))
    (Nat.mod_lt _ (by norm_num))

/-! ## Lemmas about the keystream and the tag -/

theorem xor_ks_length (key nonce : List Nat) :
    ∀ (l : List Nat) (s : Nat), (xor_ks key nonce s l).length = l.length := by
  intro l
  induction l with
  | nil => intro s; rfl
  | cons b rest ih => intro s; simp [xor_ks, ih]

theorem xor_ks_xor_ks (key nonce : List Nat) :
    ∀ (l : List Nat) (s : Nat), xor_ks key nonce s (xor_ks key nonce s l) = l := by
  intro l
  induction l with
  | nil => intro s; rfl
  | cons b rest ih => intro s; simp [xor_ks, ih, xor_cancel_right]

theorem xor_ks_set (key nonce : List Nat) :
    ∀ (l : List Nat) (s i b : Nat), i < l.length →
      xor_ks key nonce s (l.set i b) =
        (xor_ks key nonce s l).set i (b ^^^ keystream_byte key nonce (s + i)) := by
  intro l
  induction l with
  | nil => intro s i b h; simp at h
  | cons a rest ih =>
    intro s i b h
    match i with
    | 0 => simp [xor_ks]
    | i + 1 =>
      have h2 : i < rest.length := by simpa using h
      have hs : s + (i + 1) = s + 1 + i := by omega
      simp [xor_ks, List.set, hs, ih rest.length.succ.pred i b h2]
      rw [ih _ i b h2]

theorem xor_ks_getD (key nonce : List Nat) :
    ∀ (l : List Nat) (s i : Nat), i < l.length →
      (xor_ks key nonce s l).getD i 0 = (l.getD i 0 ^^^ keystream_byte key nonce (s + i)) := by
  intro l
  induction l with
  | nil => intro s i h; simp at h
  | cons a rest ih =>
    intro s i h
    match i with
    | 0 => simp [xor_ks]
    | i + 1 =>
      have h2 : i < rest.length := by simpa using h
      have hs : s + (i + 1) = s + 1 + i := by omega
      simp only [xor_ks, List.getD_cons_succ, hs]
      exact ih (s + 1) i h2

theorem encrypt_chunk_with_aad_eq (key nonce pt aad : List Nat) :
    encrypt_chunk_with_aad key nonce pt aad =
      .ok (xor_ks key nonce 0 pt ++ [compute_tag key nonce aad pt]) := by
  cases pt with
  | nil => simp [encrypt_chunk_with_aad, xor_ks]
  | cons b rest => simp [encrypt_chunk_with_aad]

theorem fold_idx_xor_acc (g : Nat → Nat → Nat) :
    ∀ (l : List Nat) (t s : Nat),
      fold_idx (fun a i b => a ^^^ g i b) t s l =
        (t ^^^ fold_idx (fun a i b => a ^^^ g i b) 0 s l) := by
  intro l
  induction l with
  | nil => intro t s; simp [fold_idx]
  | cons b rest ih =>
    intro t s
    simp only [fold_idx]
    rw [ih (t ^^^ g s b) (s + 1), ih (0 ^^^ g s b) (s + 1), Nat.zero_xor, Nat.xor_assoc]

theorem fold_idx_xor_set (g : Nat → Nat → Nat) :
    ∀ (l : List Nat) (t s i x : Nat), i < l.length →
      fold_idx (fun a j b => a ^^^ g j b) t s (l.set i x) =
        ((fold_idx (fun a j b => a ^^^ g j b) t s l ^^^ g (s + i) (l.getD i 0)) ^^^
          g (s + i) x) := by
  intro l
  induction l with
  | nil => intro t s i x h; simp at h
  | cons b rest ih =>
    intro t s i x h
    match i with
    | 0 =>
      simp only [List.set, fold_idx, List.getD_cons_zero, Nat.add_zero]
      rw [fold_idx_xor_acc g rest (t ^^^ g s x) (s + 1),
        fold_idx_xor_acc g rest (t ^^^ g s b) (s + 1)]
      generalize fold_idx (fun a i b => a ^^^ g i b) 0 (s + 1) rest = F
      rw [Nat.xor_assoc t (g s b) F, Nat.xor_comm (g s b) F, ← Nat.xor_assoc t F (g s b),
        Nat.xor_assoc (t ^^^ F) (g s b) (g s b), Nat.xor_self, Nat.xor_zero,
        Nat.xor_assoc t (g s x) F, Nat.xor_comm (g s x) F, ← Nat.xor_assoc t F (g s x)]
    | i + 1 =>
      have h2 : i < rest.length := by simpa using h
      have hs : s + (i + 1) = s + 1 + i := by omega
      simp only [List.set, fold_idx, List.getD_cons_succ, hs]
      exact ih (t ^^^ g s b) (s + 1) i x h2

/-- Changing the byte at one plaintext position changes the final
tag-mixing term, hence the tag. -/
theorem compute_tag_set_ne (key nonce aad pt : List Nat) (i x : Nat) (h : i < pt.length)
    (hne : ((pt.getD i 0 + i % 256 * 7 % 256) % 256) ≠ ((x + i % 256 * 7 % 256) % 256)) :
    compute_tag key nonce aad (pt.set i x) ≠ compute_tag key nonce aad pt := by
  unfold compute_tag
  intro heq
  rw [fold_idx_xor_set (fun j b => (b + j % 256 * 7 % 256) % 256) pt _ 0 i x h] at heq
  simp only [Nat.zero_add] at heq
  have h2 := congrArg (fun z => z ^^^ ((x + i % 256 * 7 % 256) % 256)) heq
  simp only [xor_cancel_right] at h2
  have h3 : ((x + i % 256 * 7 % 256) % 256) = ((pt.getD i 0 + i % 256 * 7 % 256) % 256) := by
    have h4 := congrArg
      (fun z => (fold_idx (fun a j b => a ^^^ (b + j % 256 * 7 % 256) % 256)
        (fold_idx (fun t i b => (t + b * Nat.max (i % 256 % 17) 1 % 256) % 256)
          (fold_idx (fun t i b => t ^^^ rotl8k b (i % 8))
            (fold_idx (fun t i b => t ^^^ (b + i % 256 * 3 % 256) % 256) 0 0 key)
            0 nonce) 0 aad) 0 pt) ^^^ z) h2.symm
    simpa [← Nat.xor_assoc, Nat.xor_self, Nat.zero_xor] using h4
  exact hne h3.symm

/-! ## C9: encrypt/decrypt round trip -/

/-- C9: for every key, nonce, aad and plaintext, decrypting the ciphertext
produced by `encrypt_chunk_with_aad` under the same key, nonce and aad
returns the plaintext, including for the empty plaintext. -/
theorem crypto_envelope_round_trip (key nonce aad pt ct : List Nat)
    (h : encrypt_chunk_with_aad key nonce pt aad = .ok ct) :
    decrypt_chunk_with_aad key nonce ct aad = .ok pt := by
  rw [encrypt_chunk_with_aad_eq] at h
  have hct : ct = xor_ks key nonce 0 pt ++ [compute_tag key nonce aad pt] := by
    cases h
    rfl
  subst hct
  have hne : xor_ks key nonce 0 pt ++ [compute_tag key nonce aad pt] ≠ [] := by simp
  unfold decrypt_chunk_with_aad
  rw [if_neg hne]
  simp only [List.dropLast_concat, List.getLast?_concat, Option.getD_some,
    xor_ks_xor_ks]
  simp

theorem crypto_envelope_round_trip_witness :
    decrypt_chunk_with_aad [1, 2] [3] 
      ((encrypt_chunk_with_aad [1, 2] [3] [7, 8] [9]).toOption.getD []) [9] = .ok [7, 8] :=
  crypto_envelope_round_trip [1, 2] [3] [9] [7, 8] _ (by rfl)

/-! ## C8: derive_nonce layout and injectivity -/

theorem derive_nonce_eq (t i : Nat) (d : Direction) :
    derive_nonce t i d = be_bytes 8 t ++ be_bytes 3 i ++ [d.tagByte] := by
  unfold derive_nonce
  have h : (be_bytes 4 i).drop 1 = be_bytes 3 i := be_bytes_succ_drop 3 i
  rw [h]

/-- C8: `derive_nonce` always returns 12 bytes, placing the transfer id
big-endian in bytes 0..8, the low three bytes of the chunk index in bytes
8..11 and the direction byte (0x01 sender-to-receiver, 0x02
receiver-to-sender) in byte 11, and it is injective on the domain of
triples with `chunk_index < 2^24`. -/
theorem derive_nonce_spec (t i : Nat) (d : Direction) :
    (derive_nonce t i d).length = 12 ∧
    (derive_nonce t i d).take 8 = be_bytes 8 t ∧
    ((derive_nonce t i d).drop 8).take 3 = be_bytes 3 i ∧
    (derive_nonce t i d).getD 11 0 = d.tagByte ∧
    (∀ t2 i2 d2, t < 2 ^ 64 → t2 < 2 ^ 64 → i < 2 ^ 24 → i2 < 2 ^ 24 →
      derive_nonce t i d = derive_nonce t2 i2 d2 → t = t2 ∧ i = i2 ∧ d = d2) := by
  rw [derive_nonce_eq]
  have hlen8 : (be_bytes 8 t).length = 8 := be_bytes_length 8 t
  refine ⟨by simp, ?_, ?_, ?_, ?_⟩
  · rw [List.append_assoc, List.take_left' hlen8]
  · rw [List.append_assoc, List.drop_left' hlen8]
    exact List.take_left' (be_bytes_length 3 i)
  · rw [List.append_assoc]
    rw [getD_append_ge _ _ 11 0 (by simp)]
    rw [getD_append_ge _ _ _ 0 (by simp)]
    simp
  · intro t2 i2 d2 ht ht2 hi hi2 heq
    rw [derive_nonce_eq, List.append_assoc, List.append_assoc] at heq
    obtain ⟨h8, hrest⟩ := List.append_inj heq (by simp)
    obtain ⟨h3, hd⟩ := List.append_inj hrest (by simp)
    have htid : t % 256 ^ 8 = t2 % 256 ^ 8 := by
      have := congrArg fromBE h8
      rwa [fromBE_be_bytes, fromBE_be_bytes] at this
    have hp8 : (256 : Nat) ^ 8 = 2 ^ 64 := by norm_num
    have hp3 : (256 : Nat) ^ 3 = 2 ^ 24 := by norm_num
    have hidx : i % 256 ^ 3 = i2 % 256 ^ 3 := by
      have := congrArg fromBE h3
      rwa [fromBE_be_bytes, fromBE_be_bytes] at this
    refine ⟨?_, ?_, ?_⟩
    · rwa [Nat.mod_eq_of_lt (hp8 ▸ ht), Nat.mod_eq_of_lt (hp8 ▸ ht2)] at htid
    · rwa [Nat.mod_eq_of_lt (hp3 ▸ hi), Nat.mod_eq_of_lt (hp3 ▸ hi2)] at hidx
    · have hb : d.tagByte = d2.tagByte := by
        have := congrArg (fun l => List.getD l 0 0) hd
        simpa using this
      cases d <;> cases d2 <;> simp_all [Direction.tagByte]

theorem derive_nonce_spec_witness :
    (derive_nonce 5 7 Direction.SenderToReceiver).length = 12 ∧
    (5 : Nat) = 5 ∧ (7 : Nat) = 7 ∧
    Direction.SenderToReceiver = Direction.SenderToReceiver :=
  ⟨(derive_nonce_spec 5 7 Direction.SenderToReceiver).1,
    (derive_nonce_spec 5 7 Direction.SenderToReceiver).2.2.2.2 5 7
      Direction.SenderToReceiver (by norm_num) (by norm_num) (by norm_num) (by norm_num) rfl⟩

/-! ## C1: encrypt_chunk_frame -/

/-- C1 (amended): `encrypt_chunk_frame` emits a v2 frame with
`encryption_flag = Encrypted`, `nonce = derive_nonce(transfer_id,
chunk_index, SenderToReceiver)` and `aad = transfer_id(be8) ‖
chunk_index(be4) ‖ total_chunks(be4)` — 16 bytes — while the payload is
the envelope encryption of the chunk payload under the EMPTY aad: the
header aad is carried in the frame but not bound by the encryption. -/
theorem encrypt_chunk_frame_spec (c : TransferChunk) (key ct : List Nat)
    (h : encrypt_chunk_with_aad key
      (derive_nonce c.transfer_id c.chunk_index Direction.SenderToReceiver)
      c.payload [] = .ok ct) :
    encrypt_chunk_frame c key =
      .ok ⟨2, .Encrypted, c.transfer_id, c.chunk_index, c.total_chunks,
        derive_nonce c.transfer_id c.chunk_index Direction.SenderToReceiver,
        transfer_chunk_aad c, ct⟩ ∧
    (transfer_chunk_aad c).length = 16 := by
  constructor
  · simp only [encrypt_chunk_frame, encrypt_chunk, h]
  · unfold transfer_chunk_aad
    simp

theorem encrypt_chunk_frame_spec_witness :
    encrypt_chunk_frame ⟨3, 0, 1, [5]⟩ [2] =
      .ok ⟨2, .Encrypted, 3, 0, 1, derive_nonce 3 0 Direction.SenderToReceiver,
        transfer_chunk_aad ⟨3, 0, 1, [5]⟩,
        (encrypt_chunk_with_aad [2] (derive_nonce 3 0 Direction.SenderToReceiver)
          [5] []).toOption.getD []⟩ :=
  (encrypt_chunk_frame_spec ⟨3, 0, 1, [5]⟩ [2] _ (by rfl)).1

/-- C1 counterexample: the frame emitted for the chunk
`{0, 0, 1, []}` under the all-zero key carries an aad that is not 12 bytes
long, and its payload is not the envelope encryption under that aad. -/
theorem encrypt_chunk_frame_counterexample :
    sampleEncryptedFrame.aad.length ≠ 12 ∧
    encrypt_chunk_with_aad zeroKey32 sampleEncryptedFrame.nonce []
      sampleEncryptedFrame.aad ≠ .ok sampleEncryptedFrame.payload := by
  decide

/-! ## C2: sensitivity of decryption to altered inputs -/

/-- C2 (amended): altering a single ciphertext byte (any position, any
different byte value) always makes `decrypt_chunk_with_aad` fail with
`DecryptionFailure`; all byte strings involved consist of bytes below
256 as in the Rust types. -/
theorem decrypt_single_byte_change_fails (key nonce aad pt ct : List Nat) (i b : Nat)
    (hk : ∀ x ∈ key, x < 256) (hn : ∀ x ∈ nonce, x < 256) (hp : ∀ x ∈ pt, x < 256)
    (hb : b < 256)
    (henc : encrypt_chunk_with_aad key nonce pt aad = .ok ct)
    (hi : i < ct.length) (hne : b ≠ ct.getD i 0) :
    decrypt_chunk_with_aad key nonce (ct.set i b) aad = .error .DecryptionFailure := by
  rw [encrypt_chunk_with_aad_eq] at henc
  have hct : ct = xor_ks key nonce 0 pt ++ [compute_tag key nonce aad pt] := by
    cases henc
    rfl
  subst hct
  have hlenb : (xor_ks key nonce 0 pt).length = pt.length := xor_ks_length key nonce pt 0
  have hilen : i < pt.length + 1 := by
    have := hi
    simpa [hlenb] using this
  rcases Nat.lt_or_ge i pt.length with hcase | hcase
  · -- altered byte lies in the encrypted payload region
    have hib : i < (xor_ks key nonce 0 pt).length := by omega
    have hset : (xor_ks key nonce 0 pt ++ [compute_tag key nonce aad pt]).set i b
        = (xor_ks key nonce 0 pt).set i b ++ [compute_tag key nonce aad pt] :=
      set_append_lt _ _ i b hib
    rw [hset]
    have hne2 : (xor_ks key nonce 0 pt).set i b ++ [compute_tag key nonce aad pt] ≠ [] := by
      simp
    unfold decrypt_chunk_with_aad
    rw [if_neg hne2]
    simp only [List.dropLast_concat, List.getLast?_concat, Option.getD_some]
    have hxset : xor_ks key nonce 0 ((xor_ks key nonce 0 pt).set i b)
        = pt.set i (b ^^^ keystream_byte key nonce i) := by
      rw [xor_ks_set key nonce _ 0 i b hib]
      rw [xor_ks_xor_ks]
      simp
    rw [hxset]
    have hgot : (xor_ks key nonce 0 pt ++ [compute_tag key nonce aad pt]).getD i 0
        = (pt.getD i 0 ^^^ keystream_byte key nonce i) := by
      rw [getD_append_lt _ _ i 0 hib]
      have := xor_ks_getD key nonce pt 0 i hcase
      simpa using this
    have hxne : (b ^^^ keystream_byte key nonce i) ≠ pt.getD i 0 := by
      intro hcontra
      apply hne
      rw [hgot, ← hcontra, xor_cancel_right]
    have hkslt : keystream_byte key nonce i < 256 := keystream_byte_lt_256 hk hn i
    have hxlt : (b ^^^ keystream_byte key nonce i) < 256 := xor_lt_256 hb hkslt
    have hptlt : pt.getD i 0 < 256 := getD_lt_256 hp i
    have hterm : ((pt.getD i 0 + i % 256 * 7 % 256) % 256)
        ≠ (((b ^^^ keystream_byte key nonce i) + i % 256 * 7 % 256) % 256) := by
      have := hxne
      omega
    have htag := compute_tag_set_ne key nonce aad pt i
      (b ^^^ keystream_byte key nonce i) hcase hterm
    rw [if_pos]
    exact fun hcontra => htag hcontra.symm
  · -- the altered byte is the tag byte
    have hieq : i = pt.length := by omega
    subst hieq
    have hset : (xor_ks key nonce 0 pt ++ [compute_tag key nonce aad pt]).set pt.length b
        = xor_ks key nonce 0 pt ++ [b] := by
      have := set_append_len (xor_ks key nonce 0 pt) (compute_tag key nonce aad pt) b
      rwa [hlenb] at this
    rw [hset]
    have hne2 : xor_ks key nonce 0 pt ++ [b] ≠ [] := by simp
    unfold decrypt_chunk_with_aad
    rw [if_neg hne2]
    simp only [List.dropLast_concat, List.getLast?_concat, Option.getD_some, xor_ks_xor_ks]
    have hgot : (xor_ks key nonce 0 pt ++ [compute_tag key nonce aad pt]).getD pt.length 0
        = compute_tag key nonce aad pt := by
      rw [getD_append_ge _ _ pt.length 0 (by omega)]
      simp [hlenb]
    rw [if_pos]
    intro hcontra
    apply hne
    rw [hgot, ← hcontra]

theorem decrypt_single_byte_change_fails_witness :
    decrypt_chunk_with_aad [1] [2]
      (((encrypt_chunk_with_aad [1] [2] [3] [4]).toOption.getD []).set 0 1) [4]
      = .error .DecryptionFailure :=
  decrypt_single_byte_change_fails [1] [2] [4] [3] _ 0 1
    (by decide) (by decide) (by decide) (by decide) (by rfl) (by decide) (by decide)

/-- C2 counterexample: with the all-zero key and nonce, the encryption of
the empty plaintext under the empty aad still decrypts successfully under
the different aad `[0]`; and the encryption of `[1]` is a ciphertext of
the same length differing from the encryption of `[0]` in at least one
byte that decrypts successfully rather than failing. -/
theorem decrypt_altered_inputs_counterexample :
    (([0] : List Nat) ≠ []) ∧
    decrypt_chunk_with_aad zeroKey32 zeroNonce12
      ((encrypt_chunk_with_aad zeroKey32 zeroNonce12 [] []).toOption.getD []) [0]
      = .ok [] ∧
    ((encrypt_chunk_with_aad zeroKey32 zeroNonce12 [1] []).toOption.getD []).length
      = ((encrypt_chunk_with_aad zeroKey32 zeroNonce12 [0] []).toOption.getD []).length ∧
    (encrypt_chunk_with_aad zeroKey32 zeroNonce12 [1] []).toOption.getD []
      ≠ (encrypt_chunk_with_aad zeroKey32 zeroNonce12 [0] []).toOption.getD [] ∧
    decrypt_chunk_with_aad zeroKey32 zeroNonce12
      ((encrypt_chunk_with_aad zeroKey32 zeroNonce12 [1] []).toOption.getD []) []
      = .ok [1] := by
  decide

/-! ## C3: decrypt_chunk_frame ignores header fields -/

/-- C3: for frames agreeing on encryption flag, nonce and payload,
`decrypt_chunk_frame` succeeds on one iff on the other, the decrypted
payloads agree, and the returned chunk's transfer_id, chunk_index and
total_chunks are copied from the frame header without any authentication
check. -/
theorem decrypt_chunk_frame_header_independent (f1 f2 : TransferChunkV2) (key : List Nat)
    (hflag : f1.encryption_flag = f2.encryption_flag)
    (hnonce : f1.nonce = f2.nonce) (hpayload : f1.payload = f2.payload) :
    ((decrypt_chunk_frame f1 key).isOk ↔ (decrypt_chunk_frame f2 key).isOk) ∧
    (∀ c1 c2, decrypt_chunk_frame f1 key = .ok c1 → decrypt_chunk_frame f2 key = .ok c2 →
      c1.payload = c2.payload) ∧
    (∀ c1, decrypt_chunk_frame f1 key = .ok c1 →
      c1.transfer_id = f1.transfer_id ∧ c1.chunk_index = f1.chunk_index ∧
        c1.total_chunks = f1.total_chunks) := by
  by_cases hf : f2.encryption_flag = EncryptionFlag.Encrypted
  · have e1 : decrypt_chunk_frame f1 key =
        match decrypt_chunk key f2.nonce f2.payload with
        | .error _ => .error (.Crypto "failed to decrypt chunk payload")
        | .ok plaintext =>
          .ok ⟨f1.transfer_id, f1.chunk_index, f1.total_chunks, plaintext⟩ := by
      unfold decrypt_chunk_frame
      rw [hnonce, hpayload, if_neg (by simp [hflag, hf])]
    have e2 : decrypt_chunk_frame f2 key =
        match decrypt_chunk key f2.nonce f2.payload with
        | .error _ => .error (.Crypto "failed to decrypt chunk payload")
        | .ok plaintext =>
          .ok ⟨f2.transfer_id, f2.chunk_index, f2.total_chunks, plaintext⟩ := by
      unfold decrypt_chunk_frame
      rw [if_neg (by simp [hf])]
    cases hdec : decrypt_chunk key f2.nonce f2.payload with
    | error e =>
      rw [hdec] at e1 e2
      refine ⟨by rw [e1, e2], ?_, ?_⟩
      · intro c1 c2 h1 _
        rw [e1] at h1
        cases h1
      · intro c1 h1
        rw [e1] at h1
        cases h1
    | ok pt =>
      rw [hdec] at e1 e2
      refine ⟨by rw [e1, e2]; simp [Except.isOk, Except.toBool], ?_, ?_⟩
      · intro c1 c2 h1 h2
        rw [e1] at h1
        rw [e2] at h2
        cases h1
        cases h2
        rfl
      · intro c1 h1
        rw [e1] at h1
        cases h1
        exact ⟨rfl, rfl, rfl⟩
  · have e1 : decrypt_chunk_frame f1 key = .error (.InvalidFrame "expected encrypted frame") := by
      unfold decrypt_chunk_frame
      rw [if_pos (by simp [hflag, hf])]
    have e2 : decrypt_chunk_frame f2 key = .error (.InvalidFrame "expected encrypted frame") := by
      unfold decrypt_chunk_frame
      rw [if_pos (by simp [hf])]
    refine ⟨by rw [e1, e2], ?_, ?_⟩
    · intro c1 c2 h1 _
      rw [e1] at h1
      cases h1
    · intro c1 h1
      rw [e1] at h1
      cases h1

theorem decrypt_chunk_frame_header_independent_witness :
    ((decrypt_chunk_frame
        ⟨2, .Encrypted, 1, 0, 1, zeroNonce12, [7, 7], [9, 9]⟩ zeroKey32).isOk ↔
      (decrypt_chunk_frame
        ⟨2, .Encrypted, 42, 3, 9, zeroNonce12, [], [9, 9]⟩ zeroKey32).isOk) :=
  (decrypt_chunk_frame_header_independent
    ⟨2, .Encrypted, 1, 0, 1, zeroNonce12, [7, 7], [9, 9]⟩
    ⟨2, .Encrypted, 42, 3, 9, zeroNonce12, [], [9, 9]⟩ zeroKey32 rfl rfl rfl).1

/-! ## C6: encryption negotiation -/

/-- C6: for capability pairs satisfying the validity invariant,
`negotiate_encryption` returns exactly what the claim's rule table says
(modelled by `negotiate_encryption_claim_model`) and is symmetric in its
arguments. -/
theorem negotiate_encryption_spec (client server : HandshakeCapabilities)
    (hc : client.validInvariant) (hs : server.validInvariant) :
    negotiate_encryption client server = negotiate_encryption_claim_model client server ∧
    negotiate_encryption client server = negotiate_encryption server client := by
  obtain ⟨b1, m1⟩ := client
  obtain ⟨b2, m2⟩ := server
  revert hc hs
  cases b1 <;> cases b2 <;> cases m1 <;> cases m2 <;> decide

theorem negotiate_encryption_spec_witness :
    negotiate_encryption ⟨true, .Optional⟩ ⟨true, .Off⟩
      = negotiate_encryption_claim_model ⟨true, .Optional⟩ ⟨true, .Off⟩ :=
  (negotiate_encryption_spec ⟨true, .Optional⟩ ⟨true, .Off⟩ (by decide) (by decide)).1

/-! ## C7: large file manager state machine -/

/-- C7: `pause` from Paused and `resume` from Running are no-op successes,
both fail `InvalidState` from Cancelled, Cancelled is terminal (`cancel`
keeps it and `update_next_chunk` always errors there), and
`update_next_chunk` fails `ChunkOutOfRange` when `n > total_chunks`, fails
`InvalidState` when Cancelled, and otherwise sets `next_chunk` to the
monotonic maximum, so the checkpoint never decreases. -/
theorem large_file_manager_state_machine (m : LargeFileManager) (n : Nat) :
    (m.checkpoint.state = .Paused → m.pause = .ok m) ∧
    (m.checkpoint.state = .Running → m.resume = .ok m) ∧
    (m.checkpoint.state = .Cancelled →
      m.pause = .error (.InvalidState "cannot pause cancelled transfer") ∧
      m.resume = .error (.InvalidState "cannot resume cancelled transfer") ∧
      m.cancel.checkpoint.state = .Cancelled ∧
      (∀ k, ∃ e, m.update_next_chunk k = .error e)) ∧
    (n > m.total_chunks → m.update_next_chunk n = .error .ChunkOutOfRange) ∧
    (n ≤ m.total_chunks → m.checkpoint.state = .Cancelled →
      m.update_next_chunk n = .error (.InvalidState "cannot update cancelled transfer")) ∧
    (n ≤ m.total_chunks → m.checkpoint.state ≠ .Cancelled →
      m.update_next_chunk n = .ok { m with checkpoint :=
        { m.checkpoint with next_chunk := Nat.max m.checkpoint.next_chunk n } }) := by
  refine ⟨?_, ?_, ?_, ?_, ?_, ?_⟩
  · intro h
    simp [LargeFileManager.pause, h]
  · intro h
    simp [LargeFileManager.resume, h]
  · intro h
    refine ⟨by simp [LargeFileManager.pause, h], by simp [LargeFileManager.resume, h],
      by simp [LargeFileManager.cancel], ?_⟩
    intro k
    by_cases hk : k > m.total_chunks
    · exact ⟨.ChunkOutOfRange, by simp [LargeFileManager.update_next_chunk, hk]⟩
    · exact ⟨.InvalidState "cannot update cancelled transfer",
        by simp [LargeFileManager.update_next_chunk, hk, h]⟩
  · intro h
    simp [LargeFileManager.update_next_chunk, h]
  · intro h hc
    simp [LargeFileManager.update_next_chunk, Nat.not_lt_of_le h, hc]
  · intro h hc
    have hnl : ¬n > m.total_chunks := Nat.not_lt_of_le h
    rcases Nat.lt_or_ge m.checkpoint.next_chunk n with hlt | hge
    · have hmax : Nat.max m.checkpoint.next_chunk n = n :=
        Nat.max_eq_right (Nat.le_of_lt hlt)
      rw [hmax]
      simp [LargeFileManager.update_next_chunk, hnl, hc, hlt]
    · have hmax : Nat.max m.checkpoint.next_chunk n = m.checkpoint.next_chunk :=
        Nat.max_eq_left hge
      rw [hmax]
      have hng : ¬n > m.checkpoint.next_chunk := Nat.not_lt_of_le hge
      simp [LargeFileManager.update_next_chunk, hnl, hc, hng]

theorem large_file_manager_state_machine_witness :
    (⟨7, 10, 16, ⟨7, 2, .Running⟩⟩ : LargeFileManager).update_next_chunk 5
      = .ok ⟨7, 10, 16, ⟨7, 5, .Running⟩⟩ := by
  have h := (large_file_manager_state_machine ⟨7, 10, 16, ⟨7, 2, .Running⟩⟩ 5).2.2.2.2.2
    (by decide) (by decide)
  simpa using h

/-! ## C10: offline LAN policy -/

/-- C10: with the default policy and offline mode enabled, `evaluate_peer`
allows every loopback, link-local and private address and denies every
other (public) address; with offline mode disabled every address is
allowed. -/
theorem lan_offline_default_policy_spec (a : SocketAddr) :
    (LanOfflineGuard.evaluate_peer ⟨LanPolicy.default, false⟩ a = .Allow) ∧
    ((a.ip.is_loopback || is_link_local a.ip || is_private a.ip) = true →
      LanOfflineGuard.evaluate_peer ⟨LanPolicy.default, true⟩ a = .Allow) ∧
    ((a.ip.is_loopback || is_link_local a.ip || is_private a.ip) = false →
      LanOfflineGuard.evaluate_peer ⟨LanPolicy.default, true⟩ a =
        .Deny "public internet address denied in offline mode") := by
  refine ⟨by simp [LanOfflineGuard.evaluate_peer], ?_, ?_⟩
  · intro h
    simp only [Bool.or_eq_true] at h
    rcases h with (h | h) | h <;>
      simp [LanOfflineGuard.evaluate_peer, LanPolicy.default, h]
  · intro h
    simp only [Bool.or_eq_false_iff] at h
    obtain ⟨⟨h1, h2⟩, h3⟩ := h
    simp [LanOfflineGuard.evaluate_peer, LanPolicy.default, h1, h2, h3]

theorem lan_offline_default_policy_spec_witness :
    LanOfflineGuard.evaluate_peer ⟨LanPolicy.default, true⟩ ⟨.V4 8 8 8 8, 443⟩ =
      .Deny "public internet address denied in offline mode" ∧
    LanOfflineGuard.evaluate_peer ⟨LanPolicy.default, true⟩ ⟨.V4 192 168 1 4, 443⟩ =
      .Allow :=
  ⟨(lan_offline_default_policy_spec ⟨.V4 8 8 8 8, 443⟩).2.2 (by decide),
    (lan_offline_default_policy_spec ⟨.V4 192 168 1 4, 443⟩).2.1 (by decide)⟩

/-! ## C4: encode/decode round trips -/

theorem transfer_chunk_encode_eq (tid idx tot : Nat) (pl : List Nat)
    (hlen : pl.length < 2 ^ 32) :
    TransferChunk.encode ⟨tid, idx, tot, pl⟩ =
      MAGIC_V1 ++ (be_bytes 8 tid ++ (be_bytes 4 idx ++ (be_bytes 4 tot ++
        (be_bytes 4 pl.length ++ pl)))) := by
  have hmin : Nat.min pl.length 4294967295 = pl.length := Nat.min_eq_left (by omega)
  simp [TransferChunk.encode, hmin, List.append_assoc, List.take_length]

theorem transfer_chunk_decode_encode (c : TransferChunk)
    (htot : 0 < c.total_chunks) (hidx : c.chunk_index < c.total_chunks)
    (htid : c.transfer_id < 2 ^ 64) (htot32 : c.total_chunks < 2 ^ 32)
    (hlen : c.payload.length < 2 ^ 32) :
    TransferChunk.decode (TransferChunk.encode c) = .ok c := by
  obtain ⟨tid, idx, tot, pl⟩ := c
  simp only at htot hidx htid htot32 hlen
  have hidx32 : idx < 2 ^ 32 := by omega
  rw [transfer_chunk_encode_eq tid idx tot pl hlen]
  set R3 : List Nat := be_bytes 4 pl.length ++ pl with hR3
  set R2 : List Nat := be_bytes 4 tot ++ R3 with hR2
  set R1 : List Nat := be_bytes 4 idx ++ R2 with hR1
  set R0 : List Nat := be_bytes 8 tid ++ R1 with hR0
  set B : List Nat := MAGIC_V1 ++ R0 with hB
  have hlenM : MAGIC_V1.length = 4 := by simp [MAGIC_V1]
  have hd4 : B.drop 4 = R0 := by rw [hB]; exact List.drop_left' hlenM
  have hd12 : B.drop 12 = R1 := by
    have h1 : B.drop 12 = (B.drop 4).drop 8 := by rw [List.drop_drop]
    rw [h1, hd4, hR0]
    exact List.drop_left' (be_bytes_length 8 tid)
  have hd16 : B.drop 16 = R2 := by
    have h1 : B.drop 16 = (B.drop 12).drop 4 := by rw [List.drop_drop]
    rw [h1, hd12, hR1]
    exact List.drop_left' (be_bytes_length 4 idx)
  have hd20 : B.drop 20 = R3 := by
    have h1 : B.drop 20 = (B.drop 16).drop 4 := by rw [List.drop_drop]
    rw [h1, hd16, hR2]
    exact List.drop_left' (be_bytes_length 4 tot)
  have hd24 : B.drop 24 = pl := by
    have h1 : B.drop 24 = (B.drop 20).drop 4 := by rw [List.drop_drop]
    rw [h1, hd20, hR3]
    exact List.drop_left' (be_bytes_length 4 pl.length)
  have ht4 : B.take 4 = MAGIC_V1 := by rw [hB]; exact List.take_left' hlenM
  have hf_tid : fromBE ((B.drop 4).take 8) = tid := by
    rw [hd4, hR0, List.take_left' (be_bytes_length 8 tid), fromBE_be_bytes]
    have : (256 : Nat) ^ 8 = 2 ^ 64 := by norm_num
    rw [this]
    exact Nat.mod_eq_of_lt htid
  have hf_idx : fromBE ((B.drop 12).take 4) = idx := by
    rw [hd12, hR1, List.take_left' (be_bytes_length 4 idx), fromBE_be_bytes]
    have : (256 : Nat) ^ 4 = 2 ^ 32 := by norm_num
    rw [this]
    exact Nat.mod_eq_of_lt hidx32
  have hf_tot : fromBE ((B.drop 16).take 4) = tot := by
    rw [hd16, hR2, List.take_left' (be_bytes_length 4 tot), fromBE_be_bytes]
    have : (256 : Nat) ^ 4 = 2 ^ 32 := by norm_num
    rw [this]
    exact Nat.mod_eq_of_lt htot32
  have hf_len : fromBE ((B.drop 20).take 4) = pl.length := by
    rw [hd20, hR3, List.take_left' (be_bytes_length 4 pl.length), fromBE_be_bytes]
    have : (256 : Nat) ^ 4 = 2 ^ 32 := by norm_num
    rw [this]
    exact Nat.mod_eq_of_lt hlen
  have hlenB : B.length = 24 + pl.length := by
    rw [hB, hR0, hR1, hR2, hR3]
    simp [MAGIC_V1]
    omega
  unfold TransferChunk.decode
  rw [if_neg (by rw [ht4, hlenB]; simp)]
  simp only [hf_tid, hf_idx, hf_tot, hf_len, hd24, hlenB]
  rw [if_neg (by omega)]
  rw [if_neg (by omega)]

theorem encryption_flag_from_as (flag : EncryptionFlag) :
    EncryptionFlag.from_u8 flag.as_u8 = .ok flag := by
  cases flag <;> rfl

theorem transfer_chunk_v2_encode_eq (flag : EncryptionFlag) (tid idx tot : Nat)
    (nonce aad pl : List Nat) (haad : aad.length < 2 ^ 16) (hlen : pl.length < 2 ^ 32) :
    TransferChunkV2.encode ⟨2, flag, tid, idx, tot, nonce, aad, pl⟩ =
      MAGIC_V2 ++ ([2] ++ ([flag.as_u8] ++ (be_bytes 8 tid ++ (be_bytes 4 idx ++
        (be_bytes 4 tot ++ (nonce ++ (be_bytes 2 aad.length ++
          (be_bytes 4 pl.length ++ (aad ++ pl))))))))) := by
  have hmin1 : Nat.min aad.length 65535 = aad.length := Nat.min_eq_left (by omega)
  have hmin2 : Nat.min pl.length 4294967295 = pl.length := Nat.min_eq_left (by omega)
  simp [TransferChunkV2.encode, hmin1, hmin2, List.append_assoc, List.take_length]

theorem transfer_chunk_v2_decode_encode (f : TransferChunkV2)
    (hpv : f.protocol_version = 2) (hn : f.nonce.length = 12)
    (htot : 0 < f.total_chunks) (hidx : f.chunk_index < f.total_chunks)
    (htid : f.transfer_id < 2 ^ 64) (htot32 : f.total_chunks < 2 ^ 32)
    (haad : f.aad.length < 2 ^ 16) (hlen : f.payload.length < 2 ^ 32) :
    TransferChunkV2.decode (TransferChunkV2.encode f) = .ok f := by
  obtain ⟨pv, flag, tid, idx, tot, nonce, aad, pl⟩ := f
  simp only at hpv hn htot hidx htid htot32 haad hlen
  subst hpv
  have hidx32 : idx < 2 ^ 32 := by omega
  rw [transfer_chunk_v2_encode_eq flag tid idx tot nonce aad pl haad hlen]
  set S40 : List Nat := aad ++ pl with hS40
  set S36 : List Nat := be_bytes 4 pl.length ++ S40 with hS36
  set S34 : List Nat := be_bytes 2 aad.length ++ S36 with hS34
  set S22 : List Nat := nonce ++ S34 with hS22
  set S18 : List Nat := be_bytes 4 tot ++ S22 with hS18
  set S14 : List Nat := be_bytes 4 idx ++ S18 with hS14
  set S6 : List Nat := be_bytes 8 tid ++ S14 with hS6
  set S5 : List Nat := [flag.as_u8] ++ S6 with hS5
  set S4 : List Nat := [2] ++ S5 with hS4
  set B : List Nat := MAGIC_V2 ++ S4 with hB
  have hlenM : MAGIC_V2.length = 4 := by simp [MAGIC_V2]
  have hd4 : B.drop 4 = S4 := by rw [hB]; exact List.drop_left' hlenM
  have hd5 : B.drop 5 = S5 := by
    have h1 : B.drop 5 = (B.drop 4).drop 1 := by rw [List.drop_drop]
    rw [h1, hd4, hS4]
    rfl
  have hd6 : B.drop 6 = S6 := by
    have h1 : B.drop 6 = (B.drop 5).drop 1 := by rw [List.drop_drop]
    rw [h1, hd5, hS5]
    rfl
  have hd14 : B.drop 14 = S14 := by
    have h1 : B.drop 14 = (B.drop 6).drop 8 := by rw [List.drop_drop]
    rw [h1, hd6, hS6]
    exact List.drop_left' (be_bytes_length 8 tid)
  have hd18 : B.drop 18 = S18 := by
    have h1 : B.drop 18 = (B.drop 14).drop 4 := by rw [List.drop_drop]
    rw [h1, hd14, hS14]
    exact List.drop_left' (be_bytes_length 4 idx)
  have hd22 : B.drop 22 = S22 := by
    have h1 : B.drop 22 = (B.drop 18).drop 4 := by rw [List.drop_drop]
    rw [h1, hd18, hS18]
    exact List.drop_left' (be_bytes_length 4 tot)
  have hd34 : B.drop 34 = S34 := by
    have h1 : B.drop 34 = (B.drop 22).drop 12 := by rw [List.drop_drop]
    rw [h1, hd22, hS22]
    exact List.drop_left' hn
  have hd36 : B.drop 36 = S36 := by
    have h1 : B.drop 36 = (B.drop 34).drop 2 := by rw [List.drop_drop]
    rw [h1, hd34, hS34]
    exact List.drop_left' (be_bytes_length 2 aad.length)
  have hd40 : B.drop 40 = S40 := by
    have h1 : B.drop 40 = (B.drop 36).drop 4 := by rw [List.drop_drop]
    rw [h1, hd36, hS36]
    exact List.drop_left' (be_bytes_length 4 pl.length)
  have hdp : B.drop (40 + aad.length) = pl := by
    have h1 : B.drop (40 + aad.length) = (B.drop 40).drop aad.length := by
      rw [List.drop_drop, Nat.add_comm]
    rw [h1, hd40, hS40]
    exact List.drop_left' rfl
  have ht4 : B.take 4 = MAGIC_V2 := by rw [hB]; exact List.take_left' hlenM
  have hg4 : B.getD 4 0 = 2 := by
    rw [hB, getD_append_ge _ _ 4 0 (by rw [hlenM])]
    rw [hlenM]
    rfl
  have hg5 : B.getD 5 0 = flag.as_u8 := by
    rw [hB, getD_append_ge _ _ 5 0 (by rw [hlenM]; omega)]
    rw [hlenM]
    rfl
  have hf_tid : fromBE ((B.drop 6).take 8) = tid := by
    rw [hd6, hS6, List.take_left' (be_bytes_length 8 tid), fromBE_be_bytes]
    have h2 : (256 : Nat) ^ 8 = 2 ^ 64 := by norm_num
    rw [h2]
    exact Nat.mod_eq_of_lt htid
  have hf_idx : fromBE ((B.drop 14).take 4) = idx := by
    rw [hd14, hS14, List.take_left' (be_bytes_length 4 idx), fromBE_be_bytes]
    have h2 : (256 : Nat) ^ 4 = 2 ^ 32 := by norm_num
    rw [h2]
    exact Nat.mod_eq_of_lt hidx32
  have hf_tot : fromBE ((B.drop 18).take 4) = tot := by
    rw [hd18, hS18, List.take_left' (be_bytes_length 4 tot), fromBE_be_bytes]
    have h2 : (256 : Nat) ^ 4 = 2 ^ 32 := by norm_num
    rw [h2]
    exact Nat.mod_eq_of_lt htot32
  have hf_nonce : (B.drop 22).take 12 = nonce := by
    rw [hd22, hS22]
    exact List.take_left' hn
  have hf_aadlen : fromBE ((B.drop 34).take 2) = aad.length := by
    rw [hd34, hS34, List.take_left' (be_bytes_length 2 aad.length), fromBE_be_bytes]
    have h2 : (256 : Nat) ^ 2 = 2 ^ 16 := by norm_num
    rw [h2]
    exact Nat.mod_eq_of_lt haad
  have hf_plen : fromBE ((B.drop 36).take 4) = pl.length := by
    rw [hd36, hS36, List.take_left' (be_bytes_length 4 pl.length), fromBE_be_bytes]
    have h2 : (256 : Nat) ^ 4 = 2 ^ 32 := by norm_num
    rw [h2]
    exact Nat.mod_eq_of_lt hlen
  have hf_aad : (B.drop 40).take aad.length = aad := by
    rw [hd40, hS40]
    exact List.take_left' rfl
  have hlenB : B.length = 40 + aad.length + pl.length := by
    rw [hB, hS4, hS5, hS6, hS14, hS18, hS22, hS34, hS36, hS40]
    simp [MAGIC_V2, hn]
    omega
  unfold TransferChunkV2.decode
  rw [if_neg (by rw [ht4, hlenB]; simp; omega)]
  simp only [hg4, hg5, encryption_flag_from_as, hf_tid, hf_idx, hf_tot, hf_nonce,
    hf_aadlen, hf_plen, hf_aad, hdp, hlenB]
  rw [if_neg (by omega)]
  rw [if_neg (by omega)]
  rw [if_neg (by omega)]

/-- C4 (amended): `decode (encode x) = Ok(x)` for v1 chunks and v2 frames
whose fields satisfy the decoder's invariants: `total_chunks ≥ 1`,
`chunk_index < total_chunks`, fields within their Rust integer widths, a
payload below 2^32 bytes and (for v2) `protocol_version = 2`, a 12-byte
nonce and an aad below 2^16 bytes. -/
theorem transfer_codec_round_trip (c : TransferChunk) (f : TransferChunkV2)
    (hctot : 0 < c.total_chunks) (hcidx : c.chunk_index < c.total_chunks)
    (hctid : c.transfer_id < 2 ^ 64) (hctot32 : c.total_chunks < 2 ^ 32)
    (hclen : c.payload.length < 2 ^ 32)
    (hfpv : f.protocol_version = 2) (hfn : f.nonce.length = 12)
    (hftot : 0 < f.total_chunks) (hfidx : f.chunk_index < f.total_chunks)
    (hftid : f.transfer_id < 2 ^ 64) (hftot32 : f.total_chunks < 2 ^ 32)
    (hfaad : f.aad.length < 2 ^ 16) (hflen : f.payload.length < 2 ^ 32) :
    TransferChunk.decode (TransferChunk.encode c) = .ok c ∧
    TransferChunkV2.decode (TransferChunkV2.encode f) = .ok f :=
  ⟨transfer_chunk_decode_encode c hctot hcidx hctid hctot32 hclen,
    transfer_chunk_v2_decode_encode f hfpv hfn hftot hfidx hftid hftot32 hfaad hflen⟩

theorem transfer_codec_round_trip_witness :
    TransferChunk.decode (TransferChunk.encode ⟨9, 1, 3, [4, 5]⟩) = .ok ⟨9, 1, 3, [4, 5]⟩ ∧
    TransferChunkV2.decode (TransferChunkV2.encode
      ⟨2, .Encrypted, 9, 1, 3, zeroNonce12, [6], [4, 5]⟩) =
        .ok ⟨2, .Encrypted, 9, 1, 3, zeroNonce12, [6], [4, 5]⟩ :=
  transfer_codec_round_trip ⟨9, 1, 3, [4, 5]⟩ ⟨2, .Encrypted, 9, 1, 3, zeroNonce12, [6], [4, 5]⟩
    (by decide) (by decide) (by decide) (by decide) (by decide)
    (by decide) (by decide) (by decide) (by decide) (by decide) (by decide)
    (by decide) (by decide)

/-- C4 counterexample: the v1 chunk `{0, 0, 0, []}` (a legal struct value,
but with `total_chunks = 0`) encodes to a frame that fails to decode, so
the round trip does not hold for every chunk. -/
theorem transfer_codec_round_trip_counterexample :
    TransferChunk.decode (TransferChunk.encode ⟨0, 0, 0, []⟩) ≠ .ok ⟨0, 0, 0, []⟩ := by
  decide

/-! ## C5: ack application -/

theorem lookup_update_self : ∀ (rs : List (String × ReceiverProgress)) (id : String)
    (v p : ReceiverProgress), lookupReceiver rs id = some p →
    lookupReceiver (updateReceiver rs id v) id = some v := by
  intro rs
  induction rs with
  | nil => intro id v p h; cases h
  | cons kv rest ih =>
    intro id v p h
    obtain ⟨k, w⟩ := kv
    by_cases hk : k = id
    · simp [updateReceiver, lookupReceiver, hk]
    · simp only [lookupReceiver, if_neg hk] at h
      simp [updateReceiver, lookupReceiver, hk]
      exact ih id v p h

theorem lookup_update_other : ∀ (rs : List (String × ReceiverProgress)) (id id2 : String)
    (v : ReceiverProgress), id ≠ id2 →
    lookupReceiver (updateReceiver rs id v) id2 = lookupReceiver rs id2 := by
  intro rs
  induction rs with
  | nil => intro id id2 v _; rfl
  | cons kv rest ih =>
    intro id id2 v hne
    obtain ⟨k, w⟩ := kv
    by_cases hk : k = id
    · subst hk
      simp [updateReceiver, lookupReceiver, hne]
    · by_cases hk2 : k = id2
      · simp [updateReceiver, lookupReceiver, hk, hk2, Ne.symm hne]
      · simp [updateReceiver, lookupReceiver, hk, hk2]
        exact ih id id2 v hne

theorem successfulFor_congr (s1 s : TransferSession) (r : String) (a : Ack)
    (h1 : s1.transfer_id = s.transfer_id) (h2 : s1.total_chunks = s.total_chunks) :
    successfulFor s1 r a ↔ successfulFor s r a := by
  unfold successfulFor
  rw [h1, h2]

theorem apply_ack_step_lookup (s : TransferSession) (a : Ack) (r : String)
    (p : ReceiverProgress) (hl : lookupReceiver s.receivers r = some p) :
    (s.apply_ack_step a).transfer_id = s.transfer_id ∧
    (s.apply_ack_step a).total_chunks = s.total_chunks ∧
    lookupReceiver (s.apply_ack_step a).receivers r = some
      { p with acked_up_to_exclusive :=
        if successfulFor s r a then Nat.max p.acked_up_to_exclusive a.next_expected_chunk
        else p.acked_up_to_exclusive } := by
  by_cases htid : a.transfer_id = s.transfer_id
  · cases hlook : lookupReceiver s.receivers a.receiver_id with
    | none =>
      have hstep : s.apply_ack_step a = s := by
        simp [TransferSession.apply_ack_step, TransferSession.apply_ack, htid, hlook]
      have hsucc : ¬ successfulFor s r a := by
        intro hs
        rw [hs.2.1] at hlook
        rw [hlook] at hl
        cases hl
      rw [hstep, if_neg hsucc]
      exact ⟨rfl, rfl, by rw [hl]⟩
    | some q =>
      by_cases hrange : a.next_expected_chunk > s.total_chunks
      · have hstep : s.apply_ack_step a = s := by
          simp [TransferSession.apply_ack_step, TransferSession.apply_ack, htid, hlook, hrange]
        have hsucc : ¬ successfulFor s r a := fun hs => absurd hs.2.2 (by omega)
        rw [hstep, if_neg hsucc]
        exact ⟨rfl, rfl, by rw [hl]⟩
      · by_cases hupd : a.next_expected_chunk > q.acked_up_to_exclusive
        · have hstep : s.apply_ack_step a = { s with receivers := (updateReceiver
              s.receivers a.receiver_id
              ⟨q.receiver_id, a.next_expected_chunk, q.total_chunks⟩) } := by
            simp [TransferSession.apply_ack_step, TransferSession.apply_ack, htid, hlook,
              hrange, hupd]
          rw [hstep]
          by_cases hrid : a.receiver_id = r
          · subst hrid
            have hq : q = p := by
              rw [hlook] at hl
              cases hl
              rfl
            subst hq
            have hsucc : successfulFor s a.receiver_id a := ⟨htid, rfl, by omega⟩
            refine ⟨rfl, rfl, ?_⟩
            have hmx : Nat.max q.acked_up_to_exclusive a.next_expected_chunk
                = a.next_expected_chunk := Nat.max_eq_right (Nat.le_of_lt hupd)
            rw [lookup_update_self s.receivers a.receiver_id _ q hlook, if_pos hsucc, hmx]
          · have hsucc : ¬ successfulFor s r a := fun hs => hrid hs.2.1
            refine ⟨rfl, rfl, ?_⟩
            rw [lookup_update_other s.receivers a.receiver_id r _ hrid, hl, if_neg hsucc]
        · have hstep : s.apply_ack_step a = s := by
            simp [TransferSession.apply_ack_step, TransferSession.apply_ack, htid, hlook,
              hrange, hupd]
          rw [hstep]
          refine ⟨rfl, rfl, ?_⟩
          rw [hl]
          by_cases hrid : a.receiver_id = r
          · subst hrid
            have hq : q = p := by
              rw [hlook] at hl
              cases hl
              rfl
            subst hq
            have hsucc : successfulFor s a.receiver_id a := ⟨htid, rfl, by omega⟩
            have hmx : Nat.max q.acked_up_to_exclusive a.next_expected_chunk
                = q.acked_up_to_exclusive := Nat.max_eq_left (by omega)
            rw [if_pos hsucc, hmx]
          · have hsucc : ¬ successfulFor s r a := fun hs => hrid hs.2.1
            rw [if_neg hsucc]
  · have hstep : s.apply_ack_step a = s := by
      simp [TransferSession.apply_ack_step, TransferSession.apply_ack, htid]
    have hsucc : ¬ successfulFor s r a := fun hs => htid hs.1
    rw [hstep, if_neg hsucc]
    exact ⟨rfl, rfl, by rw [hl]⟩

theorem apply_acks_lookup : ∀ (acks : List Ack) (s : TransferSession) (r : String)
    (p : ReceiverProgress), lookupReceiver s.receivers r = some p →
    (s.apply_acks acks).transfer_id = s.transfer_id ∧
    (s.apply_acks acks).total_chunks = s.total_chunks ∧
    lookupReceiver (s.apply_acks acks).receivers r = some
      { p with acked_up_to_exclusive := (acks.foldl
        (fun m a => if successfulFor s r a then Nat.max m a.next_expected_chunk else m)
        p.acked_up_to_exclusive) } := by
  intro acks
  induction acks with
  | nil => intro s r p hl; exact ⟨rfl, rfl, hl⟩
  | cons a rest ih =>
    intro s r p hl
    obtain ⟨h1, h2, h3⟩ := apply_ack_step_lookup s a r p hl
    obtain ⟨g1, g2, g3⟩ := ih (s.apply_ack_step a) r _ h3
    have hfun : (fun m a2 => if successfulFor (s.apply_ack_step a) r a2 then
          Nat.max m a2.next_expected_chunk else m)
        = (fun m a2 => if successfulFor s r a2 then Nat.max m a2.next_expected_chunk else m) := by
      funext m a2
      exact if_congr (successfulFor_congr _ _ r a2 h1 h2) rfl rfl
    have hrw : TransferSession.apply_acks s (a :: rest)
        = TransferSession.apply_acks (s.apply_ack_step a) rest := rfl
    refine ⟨by rw [hrw, g1, h1], by rw [hrw, g2, h2], ?_⟩
    rw [hrw, g3, hfun]
    rfl

theorem foldl_successful_max_le (s : TransferSession) (r : String) :
    ∀ (acks : List Ack) (m : Nat), m ≤ s.total_chunks →
      acks.foldl (fun m a => if successfulFor s r a then Nat.max m a.next_expected_chunk else m) m
        ≤ s.total_chunks := by
  intro acks
  induction acks with
  | nil => intro m hm; exact hm
  | cons a rest ih =>
    intro m hm
    show List.foldl _ (if successfulFor s r a then Nat.max m a.next_expected_chunk else m) rest
      ≤ s.total_chunks
    apply ih
    by_cases hs : successfulFor s r a
    · rw [if_pos hs]
      exact Nat.max_le.mpr ⟨hm, hs.2.2⟩
    · rwa [if_neg hs]

/-- C5: `apply_ack` fails `WrongTransfer` on a transfer-id mismatch,
`UnknownReceiver` for an unlisted receiver and `AckOutOfRange` when
`next_expected_chunk > total_chunks`, leaving the session unchanged on
error; for a receiver starting at checkpoint 0, after any ack sequence the
checkpoint equals the maximum `next_expected_chunk` over the successfully
applied acks for that receiver (0 if none) and stays at most
`total_chunks`. -/
theorem transfer_session_apply_ack_spec (s : TransferSession) (a : Ack) :
    (a.transfer_id ≠ s.transfer_id → s.apply_ack a = .error .WrongTransfer) ∧
    (a.transfer_id = s.transfer_id → lookupReceiver s.receivers a.receiver_id = none →
      s.apply_ack a = .error .UnknownReceiver) ∧
    (∀ p, a.transfer_id = s.transfer_id →
      lookupReceiver s.receivers a.receiver_id = some p →
      a.next_expected_chunk > s.total_chunks → s.apply_ack a = .error .AckOutOfRange) ∧
    (∀ e, s.apply_ack a = .error e → s.apply_ack_step a = s) ∧
    (∀ (acks : List Ack) (r : String) (p : ReceiverProgress),
      lookupReceiver s.receivers r = some p → p.acked_up_to_exclusive = 0 →
      lookupReceiver (s.apply_acks acks).receivers r = some
        { p with acked_up_to_exclusive := (acks.foldl
          (fun m a2 => if successfulFor s r a2 then Nat.max m a2.next_expected_chunk else m)
          0) } ∧
      (acks.foldl
        (fun m a2 => if successfulFor s r a2 then Nat.max m a2.next_expected_chunk else m)
        0) ≤ s.total_chunks) := by
  refine ⟨?_, ?_, ?_, ?_, ?_⟩
  · intro h
    simp [TransferSession.apply_ack, h]
  · intro h1 h2
    simp [TransferSession.apply_ack, h1, h2]
  · intro p h1 h2 h3
    simp [TransferSession.apply_ack, h1, h2, h3]
  · intro e he
    simp [TransferSession.apply_ack_step, he]
  · intro acks r p hl hz
    obtain ⟨_, _, h3⟩ := apply_acks_lookup acks s r p hl
    rw [hz] at h3
    exact ⟨h3, foldl_successful_max_le s r acks 0 (Nat.zero_le _)⟩

theorem transfer_session_apply_ack_spec_witness :
    lookupReceiver ((TransferSession.apply_acks ⟨7, 3, 4, [], [("a", ⟨"a", 0, 3⟩)]⟩
      [⟨7, "a", 2⟩, ⟨7, "a", 1⟩, ⟨9, "a", 3⟩]).receivers) "a" = some ⟨"a", 2, 3⟩ ∧
    (2 : Nat) ≤ 3 := by
  have h := (transfer_session_apply_ack_spec ⟨7, 3, 4, [], [("a", ⟨"a", 0, 3⟩)]⟩
    ⟨7, "a", 2⟩).2.2.2.2 [⟨7, "a", 2⟩, ⟨7, "a", 1⟩, ⟨9, "a", 3⟩] "a" ⟨"a", 0, 3⟩
    (by decide) (by decide)
  exact ⟨by simpa using h.1, by decide⟩
